import Mathlib

/-!
Verification of the algorithmic core of the geeViz-js repository.

The repository ships four driver scripts (`LANDTRENDRWrapper.js`,
`LANDTRENDRViz.js`, `CCDCViz.js`, `harmonicRegressionWrapper.js`) that
configure and invoke the library modules `changeDetectionLib.js` and
`getImagesLib.js` of the same repository.  Those library modules are not part
of the source tree under verification, so the per-pixel algorithms they
implement (harmonic fitting, segmented prediction with feathering, and
trajectory event extraction/ranking) are modelled here from the
specification; the driver-level pipeline steps (annual compositing loop,
seasonality guard) are embedded directly from the driver scripts.
-/

namespace GeeViz

/-! ## TrajectorySegmenter: data model -/

/-- Modelled from the spec: a trajectory vertex `{year, fitted_value}` of the
piecewise-linear LANDTRENDR fit (extracted in `changeDetectionLib.js`, which
is not under `src/`). -/
structure Vertex where
  year : ℤ
  fittedValue : ℚ
deriving DecidableEq

/-- Direction of a change event: loss or gain. -/
inductive EventDirection
  | loss
  | gain
deriving DecidableEq

/-- Modelled from the spec: a `ChangeEvent` derived from one trajectory
segment, with the sign-adjusted magnitude stored. -/
structure ChangeEvent where
  direction : EventDirection
  startYear : ℤ
  endYear : ℤ
  magnitude : ℚ
deriving DecidableEq

/-- Duration of an event: `end_year - start_year`. -/
def ChangeEvent.duration (e : ChangeEvent) : ℤ :=
  e.endYear - e.startYear

/-- Slope of an event: `magnitude / duration`. -/
def ChangeEvent.slope (e : ChangeEvent) : ℚ :=
  e.magnitude / (e.duration : ℚ)

/-! ## TrajectorySegmenter: event extraction -/

/-- Modelled from the spec: the candidate event of one consecutive vertex
pair.  The magnitude is `fitted_value(end) - fitted_value(start)`,
sign-adjusted by the band improvement direction; a zero-magnitude segment
produces no event, a negative adjusted magnitude is a loss, a positive one a
gain.  The deciding code lives in `changeDetectionLib.js`
(`convertToLossGain`), which is not under `src/`. -/
def segmentEvent (improvementDirection : ℤ) (a b : Vertex) : Option ChangeEvent :=
  let mag : ℚ := (b.fittedValue - a.fittedValue) * (improvementDirection : ℚ)
  if mag = 0 then none
  else some
    { direction := if mag < 0 then EventDirection.loss else EventDirection.gain
      startYear := a.year
      endYear := b.year
      magnitude := mag }

/-- Modelled from the spec: `extractEvents` maps `segmentEvent` over every
pair of consecutive vertices of a trajectory. -/
def extractEvents (trajectory : List Vertex) (improvementDirection : ℤ) : List ChangeEvent :=
  (trajectory.zip trajectory.tail).filterMap
    (fun p => segmentEvent improvementDirection p.1 p.2)

/-! ## TrajectorySegmenter: filtering and ranking -/

/-- Modelled from the spec: an event is retained when the magnitude test
`|magnitude| >= |magThresh|` passes OR the slope test
`|slope| >= |slopeThresh|` passes; it is dropped only when both fail. -/
def passesRetention (magThresh slopeThresh : ℚ) (e : ChangeEvent) : Bool :=
  decide (|magThresh| ≤ |e.magnitude| ∨ |slopeThresh| ≤ |e.slope|)

/-- Result of `filterAndRank`: retained loss events carry a slow/fast tag
(`true` means slow), retained gain events are untagged. -/
structure FilteredEvents where
  loss : List (ChangeEvent × Bool)
  gain : List ChangeEvent

/-- Modelled from the spec: `filterAndRank` keeps the events passing the
permissive OR retention policy, splits them by direction, and tags each
retained loss event as slow (`duration >= durationThresh`) or fast.
The deciding code lives in `changeDetectionLib.js`, not under `src/`. -/
def filterAndRank (events : List ChangeEvent) (magThresh slopeThresh durationThresh : ℚ) :
    FilteredEvents :=
  let kept := events.filter (passesRetention magThresh slopeThresh)
  { loss := (kept.filter (fun e => e.direction == EventDirection.loss)).map
      (fun e => (e, decide (durationThresh ≤ (e.duration : ℚ))))
    gain := kept.filter (fun e => e.direction == EventDirection.gain) }

/-- An event is retained by a `FilteredEvents` result when it appears in the
loss list (with some tag) or in the gain list. -/
def retainedIn (f : FilteredEvents) (e : ChangeEvent) : Prop :=
  (∃ b, (e, b) ∈ f.loss) ∨ e ∈ f.gain

/-- A concrete loss event used by witnesses. -/
def eventW1 : ChangeEvent := ⟨EventDirection.loss, 2001, 2004, -(1/2)⟩

/-- A concrete gain event used by witnesses. -/
def eventW2 : ChangeEvent := ⟨EventDirection.gain, 2006, 2009, 1/4⟩

/-- C1: `filterAndRank` retains an event if and only if at least one of the
magnitude test and the slope test passes; an event is dropped only when both
fail. -/
theorem filterAndRank_retained_iff (events : List ChangeEvent)
    (magThresh slopeThresh durationThresh : ℚ) (e : ChangeEvent) :
    retainedIn (filterAndRank events magThresh slopeThresh durationThresh) e ↔
      e ∈ events ∧ (|magThresh| ≤ |e.magnitude| ∨ |slopeThresh| ≤ |e.slope|) := by
  simp only [retainedIn, filterAndRank, List.mem_map, List.mem_filter, Prod.mk.injEq,
    passesRetention, beq_iff_eq, decide_eq_true_eq]
  constructor
  · rintro (⟨b, x, ⟨⟨hmem, hret⟩, hdir⟩, hxe, hb⟩ | ⟨⟨hmem, hret⟩, hdir⟩)
    · exact hxe ▸ ⟨hmem, hret⟩
    · exact ⟨hmem, hret⟩
  · rintro ⟨hmem, hret⟩
    cases hdir : e.direction with
    | loss => exact Or.inl ⟨decide (durationThresh ≤ (e.duration : ℚ)), e,
        ⟨⟨hmem, hret⟩, hdir⟩, rfl, rfl⟩
    | gain => exact Or.inr ⟨⟨hmem, hret⟩, rfl⟩

/-- C8: the retained events of `filterAndRank` are the same for every value
of `durationThresh`; the threshold only controls the slow/fast tag of the
retained loss events (slow exactly when `duration >= durationThresh`) and
never removes an event. -/
theorem filterAndRank_durationThresh_frame (events : List ChangeEvent)
    (magThresh slopeThresh d1 d2 : ℚ) :
    ((filterAndRank events magThresh slopeThresh d1).loss.map Prod.fst =
      (filterAndRank events magThresh slopeThresh d2).loss.map Prod.fst)
    ∧ ((filterAndRank events magThresh slopeThresh d1).gain =
      (filterAndRank events magThresh slopeThresh d2).gain)
    ∧ (∀ e b, (e, b) ∈ (filterAndRank events magThresh slopeThresh d1).loss →
        (b = true ↔ d1 ≤ (e.duration : ℚ))) := by
  refine ⟨?_, rfl, ?_⟩
  · simp [filterAndRank, List.map_map]
  · intro e b hmem
    simp only [filterAndRank, List.mem_map, List.mem_filter, Prod.mk.injEq] at hmem
    obtain ⟨x, _, hxe, hb⟩ := hmem
    subst hxe
    rw [← hb]
    simp

/-- C8 witness: on a concrete event list the retained loss events are the
same for duration thresholds 1 and 7. -/
theorem filterAndRank_durationThresh_frame_witness :
    (filterAndRank [eventW1, eventW2] (1/10) (1/20) 1).loss.map Prod.fst =
      (filterAndRank [eventW1, eventW2] (1/10) (1/20) 7).loss.map Prod.fst :=
  (filterAndRank_durationThresh_frame [eventW1, eventW2] (1/10) (1/20) 1 7).1

/-! ## TrajectorySegmenter: top-K selection -/

/-- The eight selection rules of `selectTopK` (the `chooseWhichLoss` /
`chooseWhichGain` options of the driver scripts). -/
inductive SelectionRule
  | newest
  | oldest
  | largest
  | smallest
  | steepest
  | mostGradual
  | shortest
  | longest
deriving DecidableEq

/-- Modelled from the spec: the primary sort key of each rule, normalised so
that every rule sorts its key ascending.  Descending keys are negated:
newest sorts `end_year` descending, oldest `start_year` ascending, largest
`|magnitude|` descending, smallest `|magnitude|` ascending, steepest
`|slope|` descending, mostGradual `|slope|` ascending, shortest `duration`
ascending, longest `duration` descending. -/
def sortValue : SelectionRule → ChangeEvent → ℚ
  | SelectionRule.newest, e => -(e.endYear : ℚ)
  | SelectionRule.oldest, e => (e.startYear : ℚ)
  | SelectionRule.largest, e => -|e.magnitude|
  | SelectionRule.smallest, e => |e.magnitude|
  | SelectionRule.steepest, e => -|e.slope|
  | SelectionRule.mostGradual, e => |e.slope|
  | SelectionRule.shortest, e => (e.duration : ℚ)
  | SelectionRule.longest, e => -(e.duration : ℚ)

/-- Modelled from the spec: the total sort relation of `selectTopK`:
primary key ascending, ties broken by `end_year` descending; remaining ties
are left to the stability of the sort (input order). -/
def eventLE (rule : SelectionRule) (a b : ChangeEvent) : Bool :=
  decide (sortValue rule a < sortValue rule b ∨
    (sortValue rule a = sortValue rule b ∧ b.endYear ≤ a.endYear))

theorem eventLE_trans (rule : SelectionRule) (a b c : ChangeEvent)
    (hab : eventLE rule a b = true) (hbc : eventLE rule b c = true) :
    eventLE rule a c = true := by
  simp only [eventLE, decide_eq_true_eq] at hab hbc ⊢
  rcases hab with h1 | ⟨h1, h2⟩ <;> rcases hbc with h3 | ⟨h3, h4⟩
  · exact Or.inl (h1.trans h3)
  · exact Or.inl (lt_of_lt_of_le h1 (le_of_eq h3))
  · exact Or.inl (lt_of_le_of_lt (le_of_eq h1) h3)
  · exact Or.inr ⟨h1.trans h3, le_trans h4 h2⟩

theorem eventLE_total (rule : SelectionRule) (a b : ChangeEvent) :
    (eventLE rule a b || eventLE rule b a) = true := by
  simp only [eventLE, Bool.or_eq_true, decide_eq_true_eq]
  rcases lt_trichotomy (sortValue rule a) (sortValue rule b) with h | h | h
  · exact Or.inl (Or.inl h)
  · rcases le_total b.endYear a.endYear with h2 | h2
    · exact Or.inl (Or.inr ⟨h, h2⟩)
    · exact Or.inr (Or.inr ⟨h.symm, h2⟩)
  · exact Or.inr (Or.inl h)

/-- Modelled from the spec: stable sort of the events by the rule order. -/
def sortEvents (rule : SelectionRule) (events : List ChangeEvent) : List ChangeEvent :=
  events.mergeSort (eventLE rule)

/-- Modelled from the spec: `selectTopK` returns the first `k` events of the
stably sorted list. -/
def selectTopK (events : List ChangeEvent) (rule : SelectionRule) (k : ℕ) :
    List ChangeEvent :=
  (sortEvents rule events).take k

/-- C7: `selectTopK` returns at most `k` events, sorted by the rule order
(primary key with the `end_year`-descending tie-break); the sorted list is a
permutation of the input; when at most `k` events qualify the whole sorted
list is returned without error; and input order is preserved for fully tied
pairs (stability). -/
theorem selectTopK_spec (events : List ChangeEvent) (rule : SelectionRule) (k : ℕ) :
    (selectTopK events rule k).length ≤ k
    ∧ List.Pairwise (fun a b => eventLE rule a b = true) (selectTopK events rule k)
    ∧ (sortEvents rule events).Perm events
    ∧ (events.length ≤ k → selectTopK events rule k = sortEvents rule events)
    ∧ (∀ a b : ChangeEvent, [a, b].Sublist events →
        sortValue rule a = sortValue rule b → a.endYear = b.endYear →
        [a, b].Sublist (sortEvents rule events)) := by
  refine ⟨?_, ?_, ?_, ?_, ?_⟩
  · simp only [selectTopK, List.length_take]
    exact min_le_left _ _
  · exact List.Pairwise.sublist (List.take_sublist k _)
      (List.sorted_mergeSort (eventLE_trans rule) (eventLE_total rule) events)
  · exact List.mergeSort_perm events (eventLE rule)
  · intro hk
    have hlen : (sortEvents rule events).length = events.length :=
      (List.mergeSort_perm events (eventLE rule)).length_eq
    exact List.take_of_length_le (hlen ▸ hk)
  · intro a b hsub hv hy
    refine List.sublist_mergeSort (eventLE_trans rule) (eventLE_total rule) ?_ hsub
    have hle : eventLE rule a b = true := by
      simp only [eventLE, decide_eq_true_eq]
      exact Or.inr ⟨hv, le_of_eq hy.symm⟩
    simp [List.pairwise_cons, hle]

/-- C7 witness: with two concrete events and k larger than the input, the
whole sorted list is returned. -/
theorem selectTopK_spec_witness :
    selectTopK [eventW1, eventW2] SelectionRule.largest 5 =
      sortEvents SelectionRule.largest [eventW1, eventW2] :=
  (selectTopK_spec [eventW1, eventW2]
    SelectionRule.largest 5).2.2.2.1 (by norm_num)

/-! ## TrajectorySegmenter: the worked spec example -/

/-- The example trajectory of the spec:
`[(2000,0.5),(2005,0.5),(2010,0.2),(2015,0.6)]`. -/
def exampleTrajectory : List Vertex :=
  [⟨2000, 1/2⟩, ⟨2005, 1/2⟩, ⟨2010, 1/5⟩, ⟨2015, 3/5⟩]

/-- The loss event expected from the 2005 to 2010 segment. -/
def exampleLossEvent : ChangeEvent :=
  ⟨EventDirection.loss, 2005, 2010, -(3/10)⟩

/-- The gain event expected from the 2010 to 2015 segment. -/
def exampleGainEvent : ChangeEvent :=
  ⟨EventDirection.gain, 2010, 2015, 2/5⟩

/-- C5: on the worked example the 2000 to 2005 segment yields no event, the
2005 to 2010 segment yields the retained loss event with magnitude -0.3,
slope -0.06 and duration 5 (tagged slow exactly when `durationThresh <= 5`),
the 2010 to 2015 segment yields the gain event with magnitude +0.4, and
`selectTopK` with rule largest and `k = 1` on the loss events returns the
2005 to 2010 event. -/
theorem simpleLANDTRENDR_example :
    segmentEvent 1 ⟨2000, 1/2⟩ ⟨2005, 1/2⟩ = none
    ∧ extractEvents exampleTrajectory 1 = [exampleLossEvent, exampleGainEvent]
    ∧ exampleLossEvent.magnitude = -(3/10)
    ∧ exampleLossEvent.slope = -(3/50)
    ∧ exampleLossEvent.duration = 5
    ∧ exampleGainEvent.magnitude = 2/5
    ∧ (∀ d : ℚ, (filterAndRank (extractEvents exampleTrajectory 1) (-(1/10)) (-(1/20)) d).loss =
        [(exampleLossEvent, decide (d ≤ 5))])
    ∧ (filterAndRank (extractEvents exampleTrajectory 1) (-(1/10)) (-(1/20)) 3).gain =
        [exampleGainEvent]
    ∧ selectTopK
        ((filterAndRank (extractEvents exampleTrajectory 1) (-(1/10)) (-(1/20)) 3).loss.map
          Prod.fst) SelectionRule.largest 1 = [exampleLossEvent] := by
  have hnoev : segmentEvent 1 ⟨2000, 1/2⟩ ⟨2005, 1/2⟩ = none := by
    norm_num [segmentEvent]
  have hext : extractEvents exampleTrajectory 1 = [exampleLossEvent, exampleGainEvent] := by
    norm_num [extractEvents, exampleTrajectory, segmentEvent, List.filterMap_cons,
      exampleLossEvent, exampleGainEvent]
  have hloss : ∀ d : ℚ,
      (filterAndRank (extractEvents exampleTrajectory 1) (-(1/10)) (-(1/20)) d).loss =
        [(exampleLossEvent, decide (d ≤ 5))] := by
    intro d
    rw [hext]
    simp only [filterAndRank, List.filter_cons, List.filter_nil, passesRetention, beq_iff_eq,
      exampleLossEvent, exampleGainEvent]
    norm_num [abs_of_nonneg, ChangeEvent.slope, ChangeEvent.duration]
    decide
  have hgain : (filterAndRank (extractEvents exampleTrajectory 1) (-(1/10)) (-(1/20)) 3).gain =
      [exampleGainEvent] := by
    rw [hext]
    simp only [filterAndRank, List.filter_cons, List.filter_nil, passesRetention, beq_iff_eq,
      exampleLossEvent, exampleGainEvent]
    norm_num [abs_of_nonneg, ChangeEvent.slope, ChangeEvent.duration]
    simp
  refine ⟨hnoev, hext, by norm_num [exampleLossEvent], ?_, by decide,
    by norm_num [exampleGainEvent], hloss, hgain, ?_⟩
  · norm_num [exampleLossEvent, ChangeEvent.slope, ChangeEvent.duration]
  · rw [hloss 3]
    simp [selectTopK, sortEvents]

/-! ## SegmentedPredictor: segment selection (CCDC) -/

/-- Modelled from the spec: one CCDC segment, reduced to its validity
interval `[tStart, tEnd)` and its break date `tBreak` (the harmonic payload
is irrelevant to segment selection).  The deciding code lives in
`changeDetectionLib.js`, not under `src/`. -/
structure CCDCSegment where
  tStart : ℚ
  tEnd : ℚ
  tBreak : ℚ
deriving DecidableEq

/-- A segment contains a query date when the date lies in the validity
interval `[tStart, tEnd)`. -/
def segmentContains (s : CCDCSegment) (t : ℚ) : Bool :=
  decide (s.tStart ≤ t ∧ t < s.tEnd)

/-- Helper: the segment with the largest `tEnd` of a list (first on ties). -/
def maxByEnd : List CCDCSegment → Option CCDCSegment
  | [] => none
  | s :: rest =>
    match maxByEnd rest with
    | none => some s
    | some b => if s.tEnd < b.tEnd then some b else some s

/-- Modelled from the spec: the nearest segment whose validity interval ends
at or before the query date (the carry-forward candidate). -/
def precedingSegment (segs : List CCDCSegment) (t : ℚ) : Option CCDCSegment :=
  maxByEnd (segs.filter (fun s => decide (s.tEnd ≤ t)))

/-- Modelled from the spec and the `fillGaps` comment of `CCDCViz.js`
(gaps between a segment end and the next start are filled only up to the
break date): search the validity intervals for the segment containing the
query date; if none is found and `fillGaps` is true, carry the nearest
preceding segment forward while the query date is before that segment
break date; otherwise return none. -/
def selectActiveSegment (segs : List CCDCSegment) (t : ℚ) (fillGaps : Bool) :
    Option CCDCSegment :=
  match segs.find? (fun s => segmentContains s t) with
  | some s => some s
  | none =>
    if fillGaps then
      match precedingSegment segs t with
      | some s => if t < s.tBreak then some s else none
      | none => none
    else none

theorem maxByEnd_eq_none {l : List CCDCSegment} :
    maxByEnd l = none ↔ l = [] := by
  cases l with
  | nil => simp [maxByEnd]
  | cons a rest =>
    rw [maxByEnd]
    constructor
    · intro h
      exfalso
      split at h
      · exact Option.noConfusion h
      · split at h <;> exact Option.noConfusion h
    · intro h
      exact (List.cons_ne_nil a rest h).elim

theorem maxByEnd_mem {l : List CCDCSegment} {s : CCDCSegment}
    (h : maxByEnd l = some s) : s ∈ l := by
  induction l with
  | nil => simp [maxByEnd] at h
  | cons a rest ih =>
    rw [maxByEnd] at h
    split at h
    · exact (Option.some_inj.mp h) ▸ List.mem_cons_self a rest
    · next b hm =>
      split at h
      · have hbs : b = s := Option.some_inj.mp h
        exact List.mem_cons_of_mem a (ih (hbs ▸ hm))
      · exact (Option.some_inj.mp h) ▸ List.mem_cons_self a rest

theorem maxByEnd_isMax {l : List CCDCSegment} {s : CCDCSegment}
    (h : maxByEnd l = some s) : ∀ x ∈ l, x.tEnd ≤ s.tEnd := by
  induction l generalizing s with
  | nil => simp [maxByEnd] at h
  | cons a rest ih =>
    intro x hx
    rw [maxByEnd] at h
    split at h
    · next hm =>
      have hrest : rest = [] := maxByEnd_eq_none.mp hm
      subst hrest
      have hxa : x = a := by simpa using hx
      rw [hxa, ← Option.some_inj.mp h]
    · next b hm =>
      split at h
      · next hlt =>
        have hbs : b = s := Option.some_inj.mp h
        rcases List.mem_cons.mp hx with hxa | hxr
        · exact hxa ▸ (hbs ▸ hlt.le)
        · exact ih (hbs ▸ hm) x hxr
      · next hlt =>
        have has : a = s := Option.some_inj.mp h
        rcases List.mem_cons.mp hx with hxa | hxr
        · exact (hxa.trans has) ▸ le_refl _
        · exact has ▸ le_trans (ih hm x hxr) (not_lt.mp hlt)

/-- C4 counterexample segment: validity `[0, 1)`, break date 2. -/
def gapSegment : CCDCSegment := ⟨0, 1, 2⟩

/-- C4 counterexample: at query date 3 the single segment is not active
(3 is outside `[0,1)`) and the segment validity interval ends before 3, yet
`selectActiveSegment` with `fillGaps = true` returns none rather than the
nearest preceding segment, because 3 is past the segment break date 2. -/
theorem selectActiveSegment_fillGaps_counterexample :
    segmentContains gapSegment 3 = false
    ∧ gapSegment.tEnd ≤ 3
    ∧ precedingSegment [gapSegment] 3 = some gapSegment
    ∧ selectActiveSegment [gapSegment] 3 true = none := by
  refine ⟨?_, by norm_num [gapSegment], ?_, ?_⟩
  · simp only [segmentContains, gapSegment, decide_eq_false_iff_not, not_and, not_lt]
    intro
    norm_num
  · simp only [precedingSegment, gapSegment, List.filter_cons, List.filter_nil]
    norm_num [maxByEnd]
  · simp only [selectActiveSegment, List.find?, segmentContains, gapSegment,
      precedingSegment, List.filter_cons, List.filter_nil]
    norm_num [maxByEnd]

/-- C4 as amended: for a query date contained in no segment validity
interval, `selectActiveSegment` with `fillGaps = false` returns none; with
`fillGaps = true` it returns the nearest preceding segment (the member of
the set with the greatest validity end at or before the query date) when the
query date is still before that segment break date, none when the query date
is at or past the break date, and none when no segment precedes the query
date. -/
theorem selectActiveSegment_gap_spec (segs : List CCDCSegment) (t : ℚ)
    (huncov : ∀ s ∈ segs, segmentContains s t = false) :
    selectActiveSegment segs t false = none
    ∧ (∀ s, precedingSegment segs t = some s →
        s ∈ segs ∧ s.tEnd ≤ t ∧ (∀ x ∈ segs, x.tEnd ≤ t → x.tEnd ≤ s.tEnd)
        ∧ selectActiveSegment segs t true = (if t < s.tBreak then some s else none))
    ∧ ((∀ s ∈ segs, ¬ s.tEnd ≤ t) → selectActiveSegment segs t true = none) := by
  have hfind : segs.find? (fun s => segmentContains s t) = none :=
    List.find?_eq_none.mpr (fun s hs => by simp [huncov s hs])
  refine ⟨?_, ?_, ?_⟩
  · simp [selectActiveSegment, hfind]
  · intro s hps
    have hmem : s ∈ segs := by
      have := maxByEnd_mem hps
      exact (List.mem_filter.mp this).1
    have hend : s.tEnd ≤ t := by
      have := maxByEnd_mem hps
      simpa using (List.mem_filter.mp this).2
    refine ⟨hmem, hend, ?_, ?_⟩
    · intro x hx hxt
      exact maxByEnd_isMax hps x (List.mem_filter.mpr ⟨hx, by simpa using hxt⟩)
    · simp [selectActiveSegment, hfind, hps]
  · intro hnone
    have hfilter : segs.filter (fun s => decide (s.tEnd ≤ t)) = [] := by
      rw [List.filter_eq_nil_iff]
      intro s hs
      simpa using hnone s hs
    simp [selectActiveSegment, hfind, precedingSegment, hfilter,
      maxByEnd_eq_none.mpr rfl]

/-- C4 amended-claim witness: with `fillGaps = true` and uncovered query
date 3/2 (inside the fill window `[1, 2)` of the counterexample segment) the
preceding segment is carried forward. -/
theorem selectActiveSegment_gap_spec_witness :
    selectActiveSegment [gapSegment] (3/2) true = some gapSegment := by
  have huncov : ∀ s ∈ [gapSegment], segmentContains s (3/2) = false := by
    intro s hs
    have hseq : s = gapSegment := by simpa using hs
    subst hseq
    simp only [segmentContains, gapSegment, decide_eq_false_iff_not, not_and, not_lt]
    intro
    norm_num
  have hpre : precedingSegment [gapSegment] (3/2) = some gapSegment := by
    simp only [precedingSegment, gapSegment, List.filter_cons, List.filter_nil]
    norm_num [maxByEnd]
  have hmain := ((selectActiveSegment_gap_spec [gapSegment] (3/2) huncov).2.1
    gapSegment hpre).2.2.2
  rw [hmain, if_pos (by norm_num [gapSegment])]

/-! ## SegmentedPredictor: feathering of two segmentations -/

/-- Modelled from the spec: the linear feathering weight
`w = (queryDate - featherStart) / (featherEnd - featherStart)`. -/
def featherWeight {F : Type} [LinearOrderedField F] (featherStart featherEnd t : F) : F :=
  (t - featherStart) / (featherEnd - featherStart)

/-- Modelled from the spec: `predictFeathered` evaluates solely from the
early segmentation A before the feather window, solely from the late
segmentation B at and after the window end, and cross-fades linearly inside
the window.  The per-segmentation evaluations (the spec `predict`, a pure
total function of the query date once `fillGaps` and the harmonic set are
fixed) are abstracted as the functions `predictA` and `predictB`.  The
deciding code lives in `changeDetectionLib.js` (`predictCCDC`), not under
`src/`. -/
def predictFeathered {F : Type} [LinearOrderedField F] (predictA predictB : F → F)
    (featherStart featherEnd : F) (t : F) : F :=
  if t < featherStart then predictA t
  else if featherEnd ≤ t then predictB t
  else (1 - featherWeight featherStart featherEnd t) * predictA t
    + featherWeight featherStart featherEnd t * predictB t

/-- The feathering weight clamped to `[0, 1]`. -/
def clampedWeight {F : Type} [LinearOrderedField F] (featherStart featherEnd t : F) : F :=
  max 0 (min 1 (featherWeight featherStart featherEnd t))

theorem predictFeathered_eq_clamped {F : Type} [LinearOrderedField F]
    (predictA predictB : F → F) (featherStart featherEnd : F)
    (h : featherStart < featherEnd) (t : F) :
    predictFeathered predictA predictB featherStart featherEnd t =
      (1 - clampedWeight featherStart featherEnd t) * predictA t
        + clampedWeight featherStart featherEnd t * predictB t := by
  have hd : 0 < featherEnd - featherStart := sub_pos.mpr h
  rw [predictFeathered, clampedWeight]
  split
  · next h1 =>
    have hw : featherWeight featherStart featherEnd t < 0 :=
      div_neg_of_neg_of_pos (sub_neg.mpr h1) hd
    rw [min_eq_right (le_trans hw.le zero_le_one), max_eq_left hw.le]
    ring
  · next h1 =>
    split
    · next h2 =>
      have hw : 1 ≤ featherWeight featherStart featherEnd t := by
        rw [featherWeight, le_div_iff₀ hd]
        linarith
      rw [min_eq_left hw, max_eq_right zero_le_one]
      ring
    · next h2 =>
      have h2lt : t < featherEnd := not_le.mp h2
      have hw0 : 0 ≤ featherWeight featherStart featherEnd t :=
        div_nonneg (by linarith [not_lt.mp h1]) hd.le
      have hw1 : featherWeight featherStart featherEnd t ≤ 1 := by
        rw [featherWeight, div_le_one hd]
        linarith
      rw [min_eq_right hw1, max_eq_right hw0]

theorem clampedWeight_continuous (featherStart featherEnd : ℝ) :
    Continuous (fun t => clampedWeight featherStart featherEnd t) := by
  have hw : Continuous (fun t : ℝ => featherWeight featherStart featherEnd t) :=
    (continuous_id.sub continuous_const).div_const _
  exact continuous_const.max (continuous_const.min hw)

/-- C2: with `featherStart < featherEnd`, `predictFeathered` equals the
early prediction strictly before the window, the late prediction at and
after the window end, and the linear cross-fade
`(1-w)*predict(A) + w*predict(B)` with
`w = (t - featherStart)/(featherEnd - featherStart)` inside the window; at
`t = featherStart` it equals the early prediction exactly, and whenever both
per-segmentation predictions are continuous the blended function of the
query date is continuous at both window boundaries. -/
theorem predictFeathered_spec (predictA predictB : ℝ → ℝ)
    (featherStart featherEnd : ℝ) (h : featherStart < featherEnd) :
    (∀ t, t < featherStart →
      predictFeathered predictA predictB featherStart featherEnd t = predictA t)
    ∧ (∀ t, featherEnd ≤ t →
      predictFeathered predictA predictB featherStart featherEnd t = predictB t)
    ∧ (∀ t, featherStart ≤ t → t < featherEnd →
      predictFeathered predictA predictB featherStart featherEnd t =
        (1 - (t - featherStart) / (featherEnd - featherStart)) * predictA t
          + (t - featherStart) / (featherEnd - featherStart) * predictB t)
    ∧ predictFeathered predictA predictB featherStart featherEnd featherStart =
        predictA featherStart
    ∧ (Continuous predictA → Continuous predictB →
        ContinuousAt (predictFeathered predictA predictB featherStart featherEnd)
          featherStart
        ∧ ContinuousAt (predictFeathered predictA predictB featherStart featherEnd)
          featherEnd) := by
  have hstart : predictFeathered predictA predictB featherStart featherEnd featherStart =
      predictA featherStart := by
    rw [predictFeathered, if_neg (lt_irrefl featherStart), if_neg (not_le.mpr h),
      featherWeight, sub_self, zero_div]
    ring
  refine ⟨?_, ?_, ?_, hstart, ?_⟩
  · intro t h1
    rw [predictFeathered, if_pos h1]
  · intro t h2
    rw [predictFeathered, if_neg (not_lt.mpr (le_trans h.le h2)), if_pos h2]
  · intro t h1 h2
    rw [predictFeathered, if_neg (not_lt.mpr h1), if_neg (not_le.mpr h2), featherWeight]
  · intro hA hB
    have heq : predictFeathered predictA predictB featherStart featherEnd =
        fun t => (1 - clampedWeight featherStart featherEnd t) * predictA t
          + clampedWeight featherStart featherEnd t * predictB t :=
      funext (predictFeathered_eq_clamped predictA predictB featherStart featherEnd h)
    have hcont : Continuous (predictFeathered predictA predictB featherStart featherEnd) := by
      rw [heq]
      exact (((continuous_const.sub (clampedWeight_continuous featherStart featherEnd)).mul
        hA).add ((clampedWeight_continuous featherStart featherEnd).mul hB))
    exact ⟨hcont.continuousAt, hcont.continuousAt⟩

/-- C2 witness: at the window `[0, 1)` with constant predictions 1 and 2,
`predictFeathered` at the window start equals the early prediction. -/
theorem predictFeathered_spec_witness :
    predictFeathered (fun _ => (1 : ℝ)) (fun _ => 2) 0 1 0 = 1 :=
  (predictFeathered_spec (fun _ => (1 : ℝ)) (fun _ => 2) 0 1 (by norm_num)).2.2.2.1

/-! ## HarmonicFitter: data model and fitting -/

/-- Failure modes of the harmonic fit. -/
inductive FitError
  | insufficientData
  | singularFit
deriving DecidableEq

/-- Modelled from the spec: a fitted harmonic model for one band; the
coefficient vector holds one entry per unknown of the least-squares design.
The fitting code lives in `getImagesLib.js`
(`getHarmonicCoefficientsAndFit`), not under `src/`. -/
structure HarmonicModel where
  band : String
  frequencies : List ℕ
  coefficients : List ℚ
deriving DecidableEq

/-- Modelled from the spec: the number of unknowns (= coefficients) of the
design, `2 + 2*|frequencies|` plus one more when detrending. -/
def coefficientCount (frequencies : List ℕ) (detrend : Bool) : ℕ :=
  2 + 2 * frequencies.length + (if detrend then 1 else 0)

/-- The valid (non-missing) samples of one band: observation pairs
`(timestamp, value)` whose band value is present. -/
def validSamples (observations : List (ℚ × Option ℚ)) : List (ℚ × ℚ) :=
  observations.filterMap (fun o => o.2.map (fun v => (o.1, v)))

/-- Modelled from the spec: `fit` for one band.  The numerical ordinary
least-squares solve is abstracted as the parameter `ols`, which maps the
valid samples and the unknown count to the minimizing coefficient vector, or
to none when the design matrix is degenerate.  The fit fails with
`InsufficientDataError` when there are fewer valid samples than unknowns,
and with `SingularFitError` when the solver reports a degenerate design. -/
def fit (ols : List (ℚ × ℚ) → ℕ → Option (List ℚ)) (band : String)
    (observations : List (ℚ × Option ℚ)) (frequencies : List ℕ) (detrend : Bool) :
    Except FitError HarmonicModel :=
  let samples := validSamples observations
  let n := coefficientCount frequencies detrend
  if samples.length < n then Except.error FitError.insufficientData
  else
    match ols samples n with
    | none => Except.error FitError.singularFit
    | some cs => Except.ok { band := band, frequencies := frequencies, coefficients := cs }

/-- A trivial least-squares stand-in used by concrete witnesses: it always
reports the zero vector of the requested length. -/
def olsZero (_samples : List (ℚ × ℚ)) (n : ℕ) : Option (List ℚ) :=
  some (List.replicate n 0)

/-- C3: whenever the least-squares solver returns one coefficient per
unknown, every model returned by a successful `fit` has exactly
`2 + 2*|frequencies|` coefficients (plus one more when detrending), and
`fit` fails with `InsufficientDataError` exactly when the number of valid
samples of the band is strictly below that same unknown count. -/
theorem fit_coefficient_count (ols : List (ℚ × ℚ) → ℕ → Option (List ℚ))
    (hols : ∀ samples n cs, ols samples n = some cs → cs.length = n)
    (band : String) (observations : List (ℚ × Option ℚ)) (frequencies : List ℕ)
    (detrend : Bool) :
    (∀ m, fit ols band observations frequencies detrend = Except.ok m →
      m.coefficients.length = 2 + 2 * frequencies.length + (if detrend then 1 else 0))
    ∧ (fit ols band observations frequencies detrend =
        Except.error FitError.insufficientData ↔
      (validSamples observations).length <
        2 + 2 * frequencies.length + (if detrend then 1 else 0)) := by
  constructor
  · intro m hm
    rw [fit] at hm
    split at hm
    · exact Except.noConfusion hm
    · split at hm
      · exact Except.noConfusion hm
      · next cs hcs =>
        have : m.coefficients = cs := by
          have := Except.ok.inj hm
          rw [← this]
        rw [this, hols _ _ _ hcs, coefficientCount]
  · rw [fit]
    split
    · next hlt => simpa [coefficientCount] using hlt
    · next hge =>
      split
      · simpa [coefficientCount] using hge
      · constructor
        · intro hcontra
          exact Except.noConfusion hcontra
        · intro hlt
          exact absurd (by simpa [coefficientCount] using hlt) hge

/-- C3 witness: with one valid sample and frequency set `[2]` under
detrending (5 unknowns), `fit` fails with `InsufficientDataError`. -/
theorem fit_coefficient_count_witness :
    fit olsZero "NDVI" [(0, some 1)] [2] true = Except.error FitError.insufficientData :=
  (fit_coefficient_count olsZero
    (fun _samples _n cs hcs => by
      simpa [olsZero] using
        (congrArg (fun o => Option.getD (Option.map List.length o) 0) hcs).symm)
    "NDVI" [(0, some 1)] [2] true).2.mpr
    (by norm_num [validSamples, List.filterMap_cons])

/-! ## HarmonicFitter: derived seasonality -/

/-- Failure mode of the seasonality derivation. -/
inductive SeasonalityError
  | unsupportedFrequency
deriving DecidableEq

/-- Derived seasonality record of one band. -/
structure DerivedSeasonality where
  amplitude : ℝ
  phase : ℝ
  peakJulianDay : ℤ
  areaUnderCurve : ℝ

/-- The cosine coefficient of frequency `k`, read from the coefficient
vector layout `[intercept, base, (cos_k, sin_k) per frequency, trend]`. -/
def cosCoeff (m : HarmonicModel) (k : ℕ) : ℚ :=
  m.coefficients.getD (2 + 2 * m.frequencies.indexOf k) 0

/-- The sine coefficient of frequency `k`. -/
def sinCoeff (m : HarmonicModel) (k : ℕ) : ℚ :=
  m.coefficients.getD (3 + 2 * m.frequencies.indexOf k) 0

/-- Two-argument arctangent, as the complex argument of `x + i y`, with
range `(-pi, pi]`. -/
noncomputable def arcTan2 (y x : ℝ) : ℝ :=
  Complex.arg ⟨x, y⟩

/-- Modelled from the spec: the fitted expression of a harmonic model at a
fractional-year date,
`intercept + slope*t + sum_k (cos_k*cos(2 pi k t) + sin_k*sin(2 pi k t))`. -/
noncomputable def predictModel (m : HarmonicModel) (t : ℝ) : ℝ :=
  ((m.coefficients.getD 0 0 : ℚ) : ℝ) + ((m.coefficients.getD 1 0 : ℚ) : ℝ) * t
    + ∑ i ∈ Finset.range m.frequencies.length,
        (((m.coefficients.getD (2 + 2 * i) 0 : ℚ) : ℝ)
            * Real.cos (2 * Real.pi * ((m.frequencies.getD i 0 : ℕ) : ℝ) * t)
          + ((m.coefficients.getD (3 + 2 * i) 0 : ℚ) : ℝ)
            * Real.sin (2 * Real.pi * ((m.frequencies.getD i 0 : ℕ) : ℝ) * t))

/-- Modelled from the spec: the seasonality scalars derived from the
frequency-2 coefficients: `amplitude = sqrt(cos_2^2 + sin_2^2)`,
`phase = atan2(sin_2, cos_2)/(2 pi)` normalized into `[0,1)` by adding 1
when negative, `peak_julian_day` the closed-form day obtained from the
phase, and the area under the non-negative part of the fitted curve over one
year. -/
noncomputable def seasonalityOf (m : HarmonicModel) : DerivedSeasonality :=
  let c : ℝ := ((cosCoeff m 2 : ℚ) : ℝ)
  let s : ℝ := ((sinCoeff m 2 : ℚ) : ℝ)
  let rawPhase := arcTan2 s c / (2 * Real.pi)
  let phase := if rawPhase < 0 then rawPhase + 1 else rawPhase
  { amplitude := Real.sqrt (c ^ 2 + s ^ 2)
    phase := phase
    peakJulianDay := ⌊phase * 365⌋ + 1
    areaUnderCurve := ∫ t in (0 : ℝ)..1, max 0 (predictModel m t) }

/-- Modelled from the spec: `derivePhaseAmplitudePeak` succeeds with the
derived scalars when frequency 2 is present and fails with
`UnsupportedFrequencyError` otherwise (`getPhaseAmplitudePeak` of
`getImagesLib.js`, not under `src/`). -/
noncomputable def derivePhaseAmplitudePeak (m : HarmonicModel) :
    Except SeasonalityError DerivedSeasonality :=
  if 2 ∈ m.frequencies then Except.ok (seasonalityOf m)
  else Except.error SeasonalityError.unsupportedFrequency

theorem seasonality_phase_bounds (m : HarmonicModel) :
    0 ≤ (seasonalityOf m).phase ∧ (seasonalityOf m).phase < 1 := by
  have hpi : (0 : ℝ) < Real.pi := Real.pi_pos
  have h2pi : (0 : ℝ) < 2 * Real.pi := by linarith
  set a := arcTan2 ((sinCoeff m 2 : ℚ) : ℝ) ((cosCoeff m 2 : ℚ) : ℝ) with ha
  have harange : -Real.pi < a ∧ a ≤ Real.pi := by
    have := Complex.arg_mem_Ioc ⟨((cosCoeff m 2 : ℚ) : ℝ), ((sinCoeff m 2 : ℚ) : ℝ)⟩
    exact ⟨this.1, this.2⟩
  have hupper : a / (2 * Real.pi) ≤ 1 / 2 := by
    rw [div_le_iff₀ h2pi]
    linarith [harange.2]
  have hlower : -(1 / 2) < a / (2 * Real.pi) := by
    rw [lt_div_iff₀ h2pi]
    linarith [harange.1]
  have hphase : (seasonalityOf m).phase =
      if a / (2 * Real.pi) < 0 then a / (2 * Real.pi) + 1 else a / (2 * Real.pi) := rfl
  rw [hphase]
  split
  · next hneg => constructor <;> linarith
  · next hpos => constructor <;> [exact not_lt.mp hpos; linarith]

theorem seasonality_peak_bounds (m : HarmonicModel) :
    1 ≤ (seasonalityOf m).peakJulianDay ∧ (seasonalityOf m).peakJulianDay ≤ 365 := by
  obtain ⟨h0, h1⟩ := seasonality_phase_bounds m
  have hpeak : (seasonalityOf m).peakJulianDay = ⌊(seasonalityOf m).phase * 365⌋ + 1 := rfl
  constructor
  · rw [hpeak]
    have : (0 : ℤ) ≤ ⌊(seasonalityOf m).phase * 365⌋ :=
      Int.floor_nonneg.mpr (by positivity)
    linarith
  · rw [hpeak]
    have : ⌊(seasonalityOf m).phase * 365⌋ < 365 := by
      rw [Int.floor_lt]
      push_cast
      nlinarith
    linarith

/-- C6: for every model whose frequency set contains 2,
`derivePhaseAmplitudePeak` succeeds and returns
`amplitude = sqrt(cos_2^2 + sin_2^2) >= 0`, a phase normalized into `[0,1)`
from `atan2(sin_2, cos_2)/(2 pi)`, and a peak Julian day in `[1, 365]`; for
every model whose frequency set does not contain 2 it fails with
`UnsupportedFrequencyError`. -/
theorem derivePhaseAmplitudePeak_spec (m : HarmonicModel) :
    (2 ∈ m.frequencies →
      derivePhaseAmplitudePeak m = Except.ok (seasonalityOf m)
      ∧ (seasonalityOf m).amplitude =
          Real.sqrt (((cosCoeff m 2 : ℚ) : ℝ) ^ 2 + ((sinCoeff m 2 : ℚ) : ℝ) ^ 2)
      ∧ 0 ≤ (seasonalityOf m).amplitude
      ∧ (seasonalityOf m).phase =
          (if arcTan2 ((sinCoeff m 2 : ℚ) : ℝ) ((cosCoeff m 2 : ℚ) : ℝ) / (2 * Real.pi) < 0
            then arcTan2 ((sinCoeff m 2 : ℚ) : ℝ) ((cosCoeff m 2 : ℚ) : ℝ) / (2 * Real.pi) + 1
            else arcTan2 ((sinCoeff m 2 : ℚ) : ℝ) ((cosCoeff m 2 : ℚ) : ℝ) / (2 * Real.pi))
      ∧ 0 ≤ (seasonalityOf m).phase ∧ (seasonalityOf m).phase < 1
      ∧ 1 ≤ (seasonalityOf m).peakJulianDay ∧ (seasonalityOf m).peakJulianDay ≤ 365)
    ∧ (2 ∉ m.frequencies →
      derivePhaseAmplitudePeak m = Except.error SeasonalityError.unsupportedFrequency) := by
  constructor
  · intro h2
    refine ⟨by rw [derivePhaseAmplitudePeak, if_pos h2], rfl, Real.sqrt_nonneg _, rfl,
      (seasonality_phase_bounds m).1, (seasonality_phase_bounds m).2,
      (seasonality_peak_bounds m).1, (seasonality_peak_bounds m).2⟩
  · intro h2
    rw [derivePhaseAmplitudePeak, if_neg h2]

/-- A model without the seasonality frequency, used by the C6 witness. -/
def modelWithoutFreq2 : HarmonicModel :=
  ⟨"NDVI", [1], [1, 0, 0, 0]⟩

/-- A model with the seasonality frequency, used by the C6 witness. -/
def modelWithFreq2 : HarmonicModel :=
  ⟨"NDVI", [2], [1, 0, 1, 1]⟩

/-- C6 witness: the derivation fails with `UnsupportedFrequencyError` on a
model without frequency 2 and yields a nonnegative amplitude and an in-range
peak day on a model with it. -/
theorem derivePhaseAmplitudePeak_spec_witness :
    derivePhaseAmplitudePeak modelWithoutFreq2 =
      Except.error SeasonalityError.unsupportedFrequency
    ∧ 0 ≤ (seasonalityOf modelWithFreq2).amplitude
    ∧ 1 ≤ (seasonalityOf modelWithFreq2).peakJulianDay :=
  ⟨(derivePhaseAmplitudePeak_spec modelWithoutFreq2).2 (by decide),
    ((derivePhaseAmplitudePeak_spec modelWithFreq2).1 (by decide)).2.2.1,
    ((derivePhaseAmplitudePeak_spec modelWithFreq2).1 (by decide)).2.2.2.2.2.2.1⟩

/-! ## Harmonic regression driver: the seasonality guard -/

/-- Embedded from `harmonicRegressionWrapper.js`: the seasonality block
(`getPhaseAmplitudePeak` and the peak-day synthetic image that consumes its
output) runs only inside the guard `whichHarmonics.indexOf(2) !== -1`, i.e.
only when 2 is a member of `whichHarmonics`; outside the guard nothing is
derived. -/
noncomputable def seasonalityGuardStep (whichHarmonics : List ℕ) (coeffs : HarmonicModel) :
    Option (Except SeasonalityError DerivedSeasonality) :=
  if 2 ∈ whichHarmonics then some (derivePhaseAmplitudePeak coeffs) else none

/-- C10: in the harmonic regression driver the coefficients are fit with the
same `whichHarmonics` the guard inspects, so the guarded seasonality step
never produces the `UnsupportedFrequencyError` branch: when 2 is absent the
derivation is not invoked at all, and when 2 is present it succeeds. -/
theorem seasonalityGuardStep_no_error (whichHarmonics : List ℕ) (coeffs : HarmonicModel)
    (hfreq : coeffs.frequencies = whichHarmonics) :
    seasonalityGuardStep whichHarmonics coeffs ≠
      some (Except.error SeasonalityError.unsupportedFrequency)
    ∧ (2 ∉ whichHarmonics → seasonalityGuardStep whichHarmonics coeffs = none)
    ∧ (2 ∈ whichHarmonics → seasonalityGuardStep whichHarmonics coeffs =
        some (Except.ok (seasonalityOf coeffs))) := by
  by_cases h2 : 2 ∈ whichHarmonics
  · have hok : derivePhaseAmplitudePeak coeffs = Except.ok (seasonalityOf coeffs) := by
      rw [derivePhaseAmplitudePeak, if_pos (hfreq ▸ h2)]
    refine ⟨?_, fun hn => absurd h2 hn, fun _ => by rw [seasonalityGuardStep, if_pos h2, hok]⟩
    rw [seasonalityGuardStep, if_pos h2, hok]
    intro hcontra
    exact Except.noConfusion (Option.some_inj.mp hcontra)
  · refine ⟨?_, fun _ => by rw [seasonalityGuardStep, if_neg h2], fun hc => absurd hc h2⟩
    rw [seasonalityGuardStep, if_neg h2]
    exact Option.noConfusion

/-- A coefficient image fit with the driver `whichHarmonics = [2, 4, 6]`,
used by the C10 witness. -/
def driverModel : HarmonicModel :=
  ⟨"NDVI", [2, 4, 6], [1, 0, 1, 1, 0, 0, 0, 0]⟩

/-- C10 witness: with the driver configuration `whichHarmonics = [2, 4, 6]`
the guarded seasonality step cannot return the unsupported-frequency
error. -/
theorem seasonalityGuardStep_no_error_witness :
    seasonalityGuardStep [2, 4, 6] driverModel ≠
      some (Except.error SeasonalityError.unsupportedFrequency) :=
  (seasonalityGuardStep_no_error [2, 4, 6] driverModel rfl).1

/-! ## LANDTRENDR driver: the annual composite collection -/

/-- A processed scene, reduced to its calendar year and an identifier (the
pixel payload is irrelevant to the collection structure). -/
structure Scene where
  sceneYear : ℤ
  sceneId : ℕ
deriving DecidableEq

/-- One annual composite of the driver: its year, its `system:time_start`
as a calendar date triple, and the scene list its median reduction was fed
(the pixelwise median itself is irrelevant to the collection structure). -/
structure AnnualComposite where
  compYear : ℤ
  timeStart : ℤ × ℕ × ℕ
  inputs : List Scene
deriving DecidableEq

/-- Modelled from the spec: `gil.fillEmptyCollections` substitutes the
dummy image for an empty collection (documented in `LANDTRENDRWrapper.js`;
the body lives in `getImagesLib.js`, not under `src/`). -/
def fillEmptyCollections (collection : List Scene) (dummy : Scene) : List Scene :=
  if collection.isEmpty then [dummy] else collection

/-- The inclusive integer year sequence `startYear..endYear` of
`ee.List.sequence(startYear, endYear)`. -/
def yearSequence (startYear endYear : ℤ) : List ℤ :=
  (List.range (endYear - startYear + 1).toNat).map (fun i : ℕ => startYear + (i : ℤ))

/-- Embedded from `LANDTRENDRWrapper.js`: the composite of one year is the
median of the scenes of that year (the dummy when the year has none), stamped
with `system:time_start` June 1 of the year. -/
def annualComposite (allImages : List Scene) (dummy : Scene) (yr : ℤ) : AnnualComposite :=
  { compYear := yr
    timeStart := (yr, 6, 1)
    inputs := fillEmptyCollections
      (allImages.filter (fun s => s.sceneYear == yr)) dummy }

/-- Embedded from `LANDTRENDRWrapper.js`: the composite collection handed to
`simpleLANDTRENDR` maps `annualComposite` over every year of
`[startYear, endYear]`. -/
def buildComposites (allImages : List Scene) (dummy : Scene) (startYear endYear : ℤ) :
    List AnnualComposite :=
  (yearSequence startYear endYear).map (annualComposite allImages dummy)

theorem mem_yearSequence {startYear endYear yr : ℤ} :
    yr ∈ yearSequence startYear endYear ↔ startYear ≤ yr ∧ yr ≤ endYear := by
  simp only [yearSequence, List.mem_map, List.mem_range]
  constructor
  · rintro ⟨i, hi, rfl⟩
    omega
  · rintro ⟨h1, h2⟩
    exact ⟨(yr - startYear).toNat, by omega, by omega⟩

theorem yearSequence_pairwise (startYear endYear : ℤ) :
    List.Pairwise (· < ·) (yearSequence startYear endYear) := by
  refine List.Pairwise.map _ ?_ (List.pairwise_lt_range _)
  intro a b hab
  omega

/-- C9: the composite collection of the LANDTRENDR driver has exactly one
image per calendar year of `[startYear, endYear]` in strictly increasing
year order; every image is stamped June 1 of its year; a year with no
matching scene is filled with the dummy image rather than dropped; and a
year with scenes keeps exactly its own scenes. -/
theorem buildComposites_spec (allImages : List Scene) (dummy : Scene)
    (startYear endYear : ℤ) (_h : startYear ≤ endYear) :
    (buildComposites allImages dummy startYear endYear).length =
      (endYear - startYear + 1).toNat
    ∧ (buildComposites allImages dummy startYear endYear).map (·.compYear) =
        yearSequence startYear endYear
    ∧ List.Pairwise (· < ·)
        ((buildComposites allImages dummy startYear endYear).map (·.compYear))
    ∧ (∀ yr, startYear ≤ yr → yr ≤ endYear →
        ((buildComposites allImages dummy startYear endYear).map (·.compYear)).count yr = 1)
    ∧ (∀ c ∈ buildComposites allImages dummy startYear endYear,
        c.timeStart = (c.compYear, 6, 1))
    ∧ (∀ c ∈ buildComposites allImages dummy startYear endYear,
        allImages.filter (fun s => s.sceneYear == c.compYear) = [] → c.inputs = [dummy])
    ∧ (∀ c ∈ buildComposites allImages dummy startYear endYear,
        allImages.filter (fun s => s.sceneYear == c.compYear) ≠ [] →
          c.inputs = allImages.filter (fun s => s.sceneYear == c.compYear)) := by
  have hmap : (buildComposites allImages dummy startYear endYear).map (·.compYear) =
      yearSequence startYear endYear := by
    rw [buildComposites, List.map_map]
    exact List.map_id _
  have hpair : List.Pairwise (· < ·)
      ((buildComposites allImages dummy startYear endYear).map (·.compYear)) :=
    hmap ▸ yearSequence_pairwise startYear endYear
  refine ⟨?_, hmap, hpair, ?_, ?_, ?_, ?_⟩
  · rw [buildComposites, List.length_map, yearSequence, List.length_map, List.length_range]
  · intro yr h1 h2
    rw [hmap]
    exact List.count_eq_one_of_mem
      ((yearSequence_pairwise startYear endYear).imp ne_of_lt)
      (mem_yearSequence.mpr ⟨h1, h2⟩)
  · intro c hc
    obtain ⟨yr, _, rfl⟩ := List.mem_map.mp hc
    rfl
  · intro c hc hempty
    obtain ⟨yr, _, rfl⟩ := List.mem_map.mp hc
    simp only [annualComposite] at hempty ⊢
    rw [fillEmptyCollections, if_pos (List.isEmpty_iff.mpr hempty)]
  · intro c hc hne
    obtain ⟨yr, _, rfl⟩ := List.mem_map.mp hc
    simp only [annualComposite] at hne ⊢
    rw [fillEmptyCollections, if_neg (fun hv => hne (List.isEmpty_iff.mp hv))]

/-- C9 witness: for years 2000 to 2002 around a single scene from 2000, the
driver produces exactly three annual composites. -/
theorem buildComposites_spec_witness :
    (buildComposites [⟨2000, 0⟩] ⟨2000, 0⟩ 2000 2002).length = 3 := by
  have hlen := (buildComposites_spec [⟨2000, 0⟩] ⟨2000, 0⟩ 2000 2002 (by norm_num)).1
  simpa using hlen

end GeeViz
